import Mathlib

/-!
Verification of the audio-position-to-word-highlight synchronization engine
of the Reade clients (a mobile client and a web client).

The engine's data model and operations are embedded shallowly:

* `WordTiming` mirrors the TypeScript interface `WordTiming`
  (`word: string; start: number; end: number`); the `end` field is named
  `endMs` because `end` is a Lean keyword.  Millisecond offsets and pixel
  offsets are modelled as `Int`: the source only ever compares them and
  subtracts them, so integer arithmetic mirrors the JavaScript number
  arithmetic exactly on the integer inputs used throughout.
* `findWordIndex` embeds the mobile client's binary search; its `while`
  loop is embedded as the fuel-indexed `searchLoop`, where `none` means
  "the loop is still running after `fuel` iterations".  `findWordIndex`
  invokes the loop with fuel `length + 1`, which is proved sufficient.
* `findWordIndexWeb` / `searchLoopWeb` are a second, independent
  transcription of the web client's byte-identical binary search.
* `trackStep`, `autoScrollStep`, `closeAudio`, `loadSegment` embed the
  highlight/scroll coupling effects of the mobile screen, and
  `webTrackStep`, `webAutoScrollStep` those of the web page.
-/

/-- One word-timing span, from the TypeScript interface
`WordTiming { word: string; start: number; end: number }`.
The source's `end` field is called `endMs` (`end` is a Lean keyword). -/
structure WordTiming where
  word : String
  start : Int
  endMs : Int
deriving Repr, DecidableEq

/-- Out-of-range reads never happen in reachable loop states, but the
embedding is total: out-of-range indexing yields this zero-width span. -/
def dummyTiming : WordTiming := { word := "", start := 0, endMs := 0 }

/-- Indexing a timing sequence by a natural number. -/
def tAt (timings : List WordTiming) (i : Nat) : WordTiming :=
  timings.getD i dummyTiming

/-- Indexing a timing sequence by an integer (as the JavaScript code does
with its `Int`-valued `lo`/`hi`/`mid` cursor variables). -/
def getT (timings : List WordTiming) (i : Int) : WordTiming :=
  timings.getD i.toNat dummyTiming

/-- The `while (lo <= hi)` loop of the mobile client's `findWordIndex`
(PdfViewerScreen), fuel-indexed: `none` means the loop has not finished
within `fuel` iterations.  Body, verbatim from the source:

  const mid = (lo + hi) >> 1;
  if (posMs >= timings[mid].start && posMs < timings[mid].end) return mid;
  if (posMs < timings[mid].start) hi = mid - 1;
  else lo = mid + 1;

and after the loop: `return Math.max(0, lo - 1);`.  `(lo + hi) >> 1` is
floor division by two; `lo + hi ≥ 0` in every reachable state, where
`Int` division `/ 2` agrees with it. -/
def searchLoop (timings : List WordTiming) (posMs : Int) :
    Nat → Int → Int → Option Int
  | 0, _, _ => none
  | fuel + 1, lo, hi =>
    if lo ≤ hi then
      let mid := (lo + hi) / 2
      let t := getT timings mid
      if t.start ≤ posMs ∧ posMs < t.endMs then some mid
      else if posMs < t.start then searchLoop timings posMs fuel lo (mid - 1)
      else searchLoop timings posMs fuel (mid + 1) hi
    else
      some (max 0 (lo - 1))

/-- The mobile client's `findWordIndex(timings, posMs)`:

  if (!timings.length) return -1;
  let lo = 0; let hi = timings.length - 1;
  if (posMs < timings[0].start) return -1;
  if (posMs >= timings[hi].start) return hi;
  while (lo <= hi) { ... }           -- `searchLoop`, fuel length+1
  return Math.max(0, lo - 1);

The loop is proved to finish within `length + 1` iterations (see
`searchLoop_isSome`), so the `getD (-1)` default is never taken. -/
def findWordIndex (timings : List WordTiming) (posMs : Int) : Int :=
  if timings.length = 0 then -1
  else
    let hi : Int := (timings.length : Int) - 1
    if posMs < (getT timings 0).start then -1
    else if (getT timings hi).start ≤ posMs then hi
    else (searchLoop timings posMs (timings.length + 1) 0 hi).getD (-1)

/-- The web client's copy of the loop, transcribed independently from the
web source (Home page); the two sources are token-identical. -/
def searchLoopWeb (timings : List WordTiming) (posMs : Int) :
    Nat → Int → Int → Option Int
  | 0, _, _ => none
  | fuel + 1, lo, hi =>
    if lo ≤ hi then
      let mid := (lo + hi) / 2
      let t := getT timings mid
      if t.start ≤ posMs ∧ posMs < t.endMs then some mid
      else if posMs < t.start then searchLoopWeb timings posMs fuel lo (mid - 1)
      else searchLoopWeb timings posMs fuel (mid + 1) hi
    else
      some (max 0 (lo - 1))

/-- The web client's `findWordIndex`, transcribed independently. -/
def findWordIndexWeb (timings : List WordTiming) (posMs : Int) : Int :=
  if timings.length = 0 then -1
  else
    let hi : Int := (timings.length : Int) - 1
    if posMs < (getT timings 0).start then -1
    else if (getT timings hi).start ≤ posMs then hi
    else (searchLoopWeb timings posMs (timings.length + 1) 0 hi).getD (-1)

/-- Non-overlap: each span ends no later than the next one starts
(`T[i].end <= T[i+1].start`). -/
def SpansOrdered (timings : List WordTiming) : Prop :=
  ∀ i : Nat, i + 1 < timings.length →
    (tAt timings i).endMs ≤ (tAt timings (i + 1)).start

/-- Positive width: every span satisfies `T[i].start < T[i].end`. -/
def SpansPositive (timings : List WordTiming) : Prop :=
  ∀ i : Nat, i < timings.length →
    (tAt timings i).start < (tAt timings i).endMs

instance (timings : List WordTiming) : Decidable (SpansOrdered timings) :=
  decidable_of_iff
    (∀ i : Nat, i < timings.length - 1 →
      (tAt timings i).endMs ≤ (tAt timings (i + 1)).start)
    (by constructor <;> exact fun h i hi => h i (by omega))

instance (timings : List WordTiming) : Decidable (SpansPositive timings) :=
  Nat.decidableBallLT _ _

/-- Scenario 1 of the specification: three contiguous spans. -/
def sampleTimings : List WordTiming :=
  [{ word := "The", start := 0, endMs := 200 },
   { word := "cat", start := 200, endMs := 500 },
   { word := "sat", start := 500, endMs := 900 }]

/-- Scenario 2 of the specification: two spans with a silence gap. -/
def gapTimings : List WordTiming :=
  [{ word := "a", start := 0, endMs := 200 },
   { word := "b", start := 400, endMs := 600 }]

/-! ### Basic unfolding and indexing lemmas -/

theorem searchLoop_succ (timings : List WordTiming) (posMs : Int)
    (fuel : Nat) (lo hi : Int) :
    searchLoop timings posMs (fuel + 1) lo hi =
      if lo ≤ hi then
        if (getT timings ((lo + hi) / 2)).start ≤ posMs ∧
            posMs < (getT timings ((lo + hi) / 2)).endMs then
          some ((lo + hi) / 2)
        else if posMs < (getT timings ((lo + hi) / 2)).start then
          searchLoop timings posMs fuel lo ((lo + hi) / 2 - 1)
        else searchLoop timings posMs fuel ((lo + hi) / 2 + 1) hi
      else some (max 0 (lo - 1)) := rfl

theorem findWordIndex_def (timings : List WordTiming) (posMs : Int) :
    findWordIndex timings posMs =
      if timings.length = 0 then -1
      else if posMs < (getT timings 0).start then -1
      else if (getT timings ((timings.length : Int) - 1)).start ≤ posMs then
        (timings.length : Int) - 1
      else
        (searchLoop timings posMs (timings.length + 1) 0
          ((timings.length : Int) - 1)).getD (-1) := rfl

theorem getT_natCast (timings : List WordTiming) (k : Nat) :
    getT timings (k : Int) = tAt timings k := by
  simp [getT, tAt]

theorem getT_zero (timings : List WordTiming) :
    getT timings 0 = tAt timings 0 := rfl

theorem getT_len_sub_one (timings : List WordTiming) :
    getT timings ((timings.length : Int) - 1) = tAt timings (timings.length - 1) := by
  unfold getT tAt
  congr 1
  omega

/-! ### Order facts about sorted, positive-width span sequences -/

theorem tAt_endMs_le_start (timings : List WordTiming)
    (ho : SpansOrdered timings) (hp : SpansPositive timings) (i : Nat) :
    ∀ j : Nat, i < j → j < timings.length →
      (tAt timings i).endMs ≤ (tAt timings j).start := by
  intro j
  induction j with
  | zero => omega
  | succ k ih =>
    intro hij hj
    rcases Nat.lt_succ_iff_lt_or_eq.mp hij with h | h
    · have hk : k < timings.length := Nat.lt_of_succ_lt hj
      have h1 := ih h hk
      have h2 := hp k hk
      have h3 := ho k hj
      omega
    · subst h
      exact ho i hj

theorem tAt_start_le_start (timings : List WordTiming)
    (ho : SpansOrdered timings) (hp : SpansPositive timings)
    {i j : Nat} (hij : i ≤ j) (hj : j < timings.length) :
    (tAt timings i).start ≤ (tAt timings j).start := by
  rcases Nat.eq_or_lt_of_le hij with h | h
  · subst h; exact le_refl _
  · have h1 := tAt_endMs_le_start timings ho hp i j h hj
    have h2 := hp i (lt_of_le_of_lt hij hj)
    omega

/-! ### The binary-search loop: termination, range, and search invariants -/

/-- The loop finishes within `(hi + 1 - lo)` further iterations, for every
input sequence (sorted or not) and every cursor state. -/
theorem searchLoop_isSome (timings : List WordTiming) (posMs : Int) :
    ∀ (fuel : Nat) (lo hi : Int), (hi + 1 - lo).toNat < fuel →
      ∃ r, searchLoop timings posMs fuel lo hi = some r := by
  intro fuel
  induction fuel with
  | zero => intro lo hi h; omega
  | succ n ih =>
    intro lo hi h
    by_cases hlh : lo ≤ hi
    · have hm1 : lo ≤ (lo + hi) / 2 := by omega
      have hm2 : (lo + hi) / 2 ≤ hi := by omega
      by_cases hc : (getT timings ((lo + hi) / 2)).start ≤ posMs ∧
          posMs < (getT timings ((lo + hi) / 2)).endMs
      · exact ⟨(lo + hi) / 2, by rw [searchLoop_succ, if_pos hlh, if_pos hc]⟩
      · by_cases hlt : posMs < (getT timings ((lo + hi) / 2)).start
        · obtain ⟨r, hr⟩ := ih lo ((lo + hi) / 2 - 1) (by omega)
          exact ⟨r, by rw [searchLoop_succ, if_pos hlh, if_neg hc, if_pos hlt]; exact hr⟩
        · obtain ⟨r, hr⟩ := ih ((lo + hi) / 2 + 1) hi (by omega)
          exact ⟨r, by rw [searchLoop_succ, if_pos hlh, if_neg hc, if_neg hlt]; exact hr⟩
    · exact ⟨max 0 (lo - 1), by rw [searchLoop_succ, if_neg hlh]⟩

/-- Whatever the loop returns lies in `[0, length - 1]`, for every input
sequence, as long as the cursor bounds are in the valid band. -/
theorem searchLoop_mem_range (timings : List WordTiming) (posMs : Int) :
    ∀ (fuel : Nat) (lo hi r : Int), 0 ≤ lo → lo ≤ (timings.length : Int) →
      hi ≤ (timings.length : Int) - 1 → 1 ≤ timings.length →
      searchLoop timings posMs fuel lo hi = some r →
      0 ≤ r ∧ r ≤ (timings.length : Int) - 1 := by
  intro fuel
  induction fuel with
  | zero => intro lo hi r _ _ _ _ h; simp [searchLoop] at h
  | succ n ih =>
    intro lo hi r h0 hlen hhi hT h
    by_cases hlh : lo ≤ hi
    · have hm1 : lo ≤ (lo + hi) / 2 := by omega
      have hm2 : (lo + hi) / 2 ≤ hi := by omega
      by_cases hc : (getT timings ((lo + hi) / 2)).start ≤ posMs ∧
          posMs < (getT timings ((lo + hi) / 2)).endMs
      · rw [searchLoop_succ, if_pos hlh, if_pos hc] at h
        simp only [Option.some.injEq] at h
        omega
      · by_cases hlt : posMs < (getT timings ((lo + hi) / 2)).start
        · rw [searchLoop_succ, if_pos hlh, if_neg hc, if_pos hlt] at h
          exact ih lo ((lo + hi) / 2 - 1) r h0 hlen (by omega) hT h
        · rw [searchLoop_succ, if_pos hlh, if_neg hc, if_neg hlt] at h
          exact ih ((lo + hi) / 2 + 1) hi r (by omega) (by omega) hhi hT h
    · rw [searchLoop_succ, if_neg hlh] at h
      simp only [Option.some.injEq] at h
      omega

/-- Search invariant, containment case: if span `i` contains `posMs` and the
sequence is sorted with positive-width non-overlapping spans, the loop run
on any cursor band `[lo, hi]` enclosing `i` returns exactly `i`. -/
theorem searchLoop_containing (timings : List WordTiming) (posMs : Int)
    (ho : SpansOrdered timings) (hp : SpansPositive timings)
    (i : Nat) (hiT : i < timings.length)
    (h1 : (tAt timings i).start ≤ posMs) (h2 : posMs < (tAt timings i).endMs) :
    ∀ (fuel : Nat) (lo hi : Int), 0 ≤ lo → lo ≤ (i : Int) → (i : Int) ≤ hi →
      hi ≤ (timings.length : Int) - 1 → (hi + 1 - lo).toNat < fuel →
      searchLoop timings posMs fuel lo hi = some (i : Int) := by
  intro fuel
  induction fuel with
  | zero => intro lo hi _ _ _ _ hf; omega
  | succ n ih =>
    intro lo hi h0 hloi hihi hhiT hf
    have hlh : lo ≤ hi := le_trans hloi hihi
    obtain ⟨mN, hmN, hm1, hm2⟩ :
        ∃ mN : Nat, (mN : Int) = (lo + hi) / 2 ∧ lo ≤ (mN : Int) ∧ (mN : Int) ≤ hi :=
      ⟨((lo + hi) / 2).toNat, by omega, by omega, by omega⟩
    rw [searchLoop_succ, if_pos hlh, ← hmN, getT_natCast]
    have hmT : mN < timings.length := by omega
    rcases Nat.lt_trichotomy mN i with hlt | heq | hgt
    · -- midpoint strictly left of the containing span: move `lo` up
      have e1 : (tAt timings mN).endMs ≤ (tAt timings i).start :=
        tAt_endMs_le_start timings ho hp mN i hlt hiT
      have s1 : (tAt timings mN).start < (tAt timings mN).endMs := hp mN hmT
      have hc : ¬((tAt timings mN).start ≤ posMs ∧ posMs < (tAt timings mN).endMs) := by
        intro hab; omega
      have hl2 : ¬(posMs < (tAt timings mN).start) := by omega
      rw [if_neg hc, if_neg hl2]
      exact ih ((mN : Int) + 1) hi (by omega) (by omega) hihi hhiT (by omega)
    · -- midpoint is the containing span: return it
      subst heq
      rw [if_pos ⟨h1, h2⟩]
    · -- midpoint strictly right of the containing span: move `hi` down
      have e1 : (tAt timings i).endMs ≤ (tAt timings mN).start :=
        tAt_endMs_le_start timings ho hp i mN hgt hmT
      have hc : ¬((tAt timings mN).start ≤ posMs ∧ posMs < (tAt timings mN).endMs) := by
        intro hab; omega
      have hl2 : posMs < (tAt timings mN).start := by omega
      rw [if_neg hc, if_pos hl2]
      exact ih lo ((mN : Int) - 1) h0 hloi (by omega) (by omega) (by omega)

/-- Search invariant, gap case: if `posMs` lies in the silence gap between
spans `i` and `i + 1` of a sorted positive-width sequence, the loop run on
any cursor band with `lo ≤ i + 1` and `i ≤ hi` returns `i`. -/
theorem searchLoop_gap (timings : List WordTiming) (posMs : Int)
    (ho : SpansOrdered timings) (hp : SpansPositive timings)
    (i : Nat) (hi1 : i + 1 < timings.length)
    (hge : (tAt timings i).endMs ≤ posMs) (hlt : posMs < (tAt timings (i + 1)).start) :
    ∀ (fuel : Nat) (lo hi : Int), 0 ≤ lo → lo ≤ (i : Int) + 1 → (i : Int) ≤ hi →
      hi ≤ (timings.length : Int) - 1 → (hi + 1 - lo).toNat < fuel →
      searchLoop timings posMs fuel lo hi = some (i : Int) := by
  intro fuel
  induction fuel with
  | zero => intro lo hi _ _ _ _ hf; omega
  | succ n ih =>
    intro lo hi h0 hloi hihi hhiT hf
    by_cases hlh : lo ≤ hi
    · obtain ⟨mN, hmN, hm1, hm2⟩ :
          ∃ mN : Nat, (mN : Int) = (lo + hi) / 2 ∧ lo ≤ (mN : Int) ∧ (mN : Int) ≤ hi :=
        ⟨((lo + hi) / 2).toNat, by omega, by omega, by omega⟩
      rw [searchLoop_succ, if_pos hlh, ← hmN, getT_natCast]
      have hmT : mN < timings.length := by omega
      have hiT : i < timings.length := by omega
      by_cases hmi : mN ≤ i
      · -- midpoint at or left of the gap's left neighbour: move `lo` up
        have e1 : (tAt timings mN).endMs ≤ posMs := by
          rcases Nat.eq_or_lt_of_le hmi with h | h
          · subst h; exact hge
          · have := tAt_endMs_le_start timings ho hp mN i h hiT
            have := hp i hiT
            omega
        have s1 : (tAt timings mN).start < (tAt timings mN).endMs := hp mN hmT
        have hc : ¬((tAt timings mN).start ≤ posMs ∧ posMs < (tAt timings mN).endMs) := by
          intro hab; omega
        have hl2 : ¬(posMs < (tAt timings mN).start) := by omega
        rw [if_neg hc, if_neg hl2]
        exact ih ((mN : Int) + 1) hi (by omega) (by omega) hihi hhiT (by omega)
      · -- midpoint at or right of the gap's right neighbour: move `hi` down
        have hm3 : i + 1 ≤ mN := by omega
        have e1 : (tAt timings (i + 1)).start ≤ (tAt timings mN).start :=
          tAt_start_le_start timings ho hp hm3 hmT
        have hc : ¬((tAt timings mN).start ≤ posMs ∧ posMs < (tAt timings mN).endMs) := by
          intro hab; omega
        have hl2 : posMs < (tAt timings mN).start := by omega
        rw [if_neg hc, if_pos hl2]
        exact ih lo ((mN : Int) - 1) h0 hloi (by omega) (by omega) (by omega)
    · -- cursor band empty: `lo = i + 1`, the fallback returns `max 0 (lo - 1) = i`
      rw [searchLoop_succ, if_neg hlh]
      simp only [Option.some.injEq]
      omega

/-! ### Whole-function facts about `findWordIndex` -/

/-- With a non-empty sequence and a position at or past the first start,
the result is a valid index: in `[0, length - 1]`.  No sortedness is
assumed. -/
theorem findWordIndex_bounds (timings : List WordTiming) (posMs : Int)
    (hne : timings.length ≠ 0) (hge : (tAt timings 0).start ≤ posMs) :
    0 ≤ findWordIndex timings posMs ∧
      findWordIndex timings posMs ≤ (timings.length : Int) - 1 := by
  rw [findWordIndex_def, if_neg hne, getT_zero, if_neg (not_lt.mpr hge)]
  by_cases hlast : (getT timings ((timings.length : Int) - 1)).start ≤ posMs
  · rw [if_pos hlast]
    omega
  · rw [if_neg hlast]
    obtain ⟨r, hr⟩ := searchLoop_isSome timings posMs (timings.length + 1) 0
      ((timings.length : Int) - 1) (by omega)
    rw [hr, Option.getD_some]
    exact searchLoop_mem_range timings posMs (timings.length + 1) 0
      ((timings.length : Int) - 1) r le_rfl (by omega) (by omega) (by omega) hr

/-- The result is always at least `-1`. -/
theorem findWordIndex_ge_neg_one (timings : List WordTiming) (posMs : Int) :
    -1 ≤ findWordIndex timings posMs := by
  by_cases hne : timings.length = 0
  · rw [findWordIndex_def, if_pos hne]
  · by_cases hge : (tAt timings 0).start ≤ posMs
    · have := findWordIndex_bounds timings posMs hne hge
      omega
    · rw [findWordIndex_def, if_neg hne, getT_zero, if_pos (not_le.mp hge)]

/-- The `-1` sentinel appears exactly for an empty sequence or a position
strictly before the first span's start.  No sortedness is assumed. -/
theorem findWordIndex_eq_neg_one_iff (timings : List WordTiming) (posMs : Int) :
    findWordIndex timings posMs = -1 ↔
      (timings.length = 0 ∨ posMs < (tAt timings 0).start) := by
  constructor
  · intro h
    by_cases hne : timings.length = 0
    · exact Or.inl hne
    · by_cases hge : (tAt timings 0).start ≤ posMs
      · have := findWordIndex_bounds timings posMs hne hge
        omega
      · exact Or.inr (not_le.mp hge)
  · intro h
    rcases h with h | h
    · rw [findWordIndex_def, if_pos h]
    · by_cases h0 : timings.length = 0
      · rw [findWordIndex_def, if_pos h0]
      · rw [findWordIndex_def, if_neg h0, getT_zero, if_pos h]

/-- Exact containment, whole function: on a sorted positive-width sequence,
a position inside span `i` yields `i`. -/
theorem findWordIndex_containing (timings : List WordTiming) (posMs : Int)
    (ho : SpansOrdered timings) (hp : SpansPositive timings)
    (i : Nat) (hiT : i < timings.length)
    (h1 : (tAt timings i).start ≤ posMs) (h2 : posMs < (tAt timings i).endMs) :
    findWordIndex timings posMs = (i : Int) := by
  have hne : timings.length ≠ 0 := by omega
  have h0le : (tAt timings 0).start ≤ posMs :=
    le_trans (tAt_start_le_start timings ho hp (Nat.zero_le i) hiT) h1
  rw [findWordIndex_def, if_neg hne, getT_zero, if_neg (not_lt.mpr h0le),
    getT_len_sub_one]
  by_cases hlast : i = timings.length - 1
  · subst hlast
    rw [if_pos h1]
    omega
  · have hilt : i < timings.length - 1 := by omega
    have hstep : (tAt timings i).endMs ≤ (tAt timings (timings.length - 1)).start :=
      tAt_endMs_le_start timings ho hp i (timings.length - 1) hilt (by omega)
    rw [if_neg (by omega)]
    rw [searchLoop_containing timings posMs ho hp i hiT h1 h2 (timings.length + 1)
      0 ((timings.length : Int) - 1) le_rfl (by omega) (by omega) (by omega) (by omega)]
    rfl

/-- Gap fallback, whole function: on a sorted positive-width sequence, a
position in the silence between spans `i` and `i + 1` yields `i`. -/
theorem findWordIndex_gap_fb (timings : List WordTiming) (posMs : Int)
    (ho : SpansOrdered timings) (hp : SpansPositive timings)
    (i : Nat) (hi1 : i + 1 < timings.length)
    (hge : (tAt timings i).endMs ≤ posMs)
    (hlt : posMs < (tAt timings (i + 1)).start) :
    findWordIndex timings posMs = (i : Int) := by
  have hne : timings.length ≠ 0 := by omega
  have hiT : i < timings.length := by omega
  have hpi := hp i hiT
  have h0le : (tAt timings 0).start ≤ posMs := by
    have := tAt_start_le_start timings ho hp (Nat.zero_le i) hiT
    omega
  have hlastgt : posMs < (tAt timings (timings.length - 1)).start := by
    have : (tAt timings (i + 1)).start ≤ (tAt timings (timings.length - 1)).start :=
      tAt_start_le_start timings ho hp (by omega) (by omega)
    omega
  rw [findWordIndex_def, if_neg hne, getT_zero, if_neg (not_lt.mpr h0le),
    getT_len_sub_one, if_neg (by omega)]
  rw [searchLoop_gap timings posMs ho hp i hi1 hge hlt (timings.length + 1)
    0 ((timings.length : Int) - 1) le_rfl (by omega) (by omega) (by omega) (by omega)]
  rfl

/-- Trailing positions: with the first start at or below the last start
(true of every sorted sequence), a position at or past the last start
yields the last index. -/
theorem findWordIndex_trailing (timings : List WordTiming) (posMs : Int)
    (hne : timings.length ≠ 0)
    (h01 : (tAt timings 0).start ≤ (tAt timings (timings.length - 1)).start)
    (hpos : (tAt timings (timings.length - 1)).start ≤ posMs) :
    findWordIndex timings posMs = (timings.length : Int) - 1 := by
  rw [findWordIndex_def, if_neg hne, getT_zero, if_neg (by omega),
    getT_len_sub_one, if_pos hpos]

/-- Locating lemma: on a sorted positive-width sequence, a position between
the first and the last start lies between two consecutive starts, and
`findWordIndex` returns the left one of that pair. -/
theorem findWordIndex_locates (timings : List WordTiming) (posMs : Int)
    (ho : SpansOrdered timings) (hp : SpansPositive timings)
    (hne : timings.length ≠ 0)
    (hge : (tAt timings 0).start ≤ posMs)
    (hlt : posMs < (tAt timings (timings.length - 1)).start) :
    ∃ i : Nat, i + 1 < timings.length ∧ (tAt timings i).start ≤ posMs ∧
      posMs < (tAt timings (i + 1)).start ∧
      findWordIndex timings posMs = (i : Int) := by
  set P : Nat → Prop := fun j => (tAt timings j).start ≤ posMs with hP
  have hP0 : P 0 := hge
  set i := Nat.findGreatest P (timings.length - 1) with hi
  have hPi : P i := Nat.findGreatest_spec (Nat.zero_le _) hP0
  have hile : i ≤ timings.length - 1 := Nat.findGreatest_le _
  have hine : i ≠ timings.length - 1 := by
    intro h
    rw [h] at hPi
    exact absurd hPi (not_le.mpr hlt)
  have hi1 : i + 1 < timings.length := by omega
  have hnPi1 : ¬P (i + 1) :=
    Nat.findGreatest_is_greatest (Nat.lt_succ_self i) (by omega)
  have hlt1 : posMs < (tAt timings (i + 1)).start := not_le.mp hnPi1
  refine ⟨i, hi1, hPi, hlt1, ?_⟩
  by_cases hcont : posMs < (tAt timings i).endMs
  · exact findWordIndex_containing timings posMs ho hp i (by omega) hPi hcont
  · exact findWordIndex_gap_fb timings posMs ho hp i hi1 (not_lt.mp hcont) hlt1

/-- Monotonicity: on a sorted positive-width sequence the lookup is
monotone non-decreasing in the position. -/
theorem findWordIndex_mono (timings : List WordTiming)
    (ho : SpansOrdered timings) (hp : SpansPositive timings)
    (pos1 pos2 : Int) (h12 : pos1 ≤ pos2) :
    findWordIndex timings pos1 ≤ findWordIndex timings pos2 := by
  by_cases h0 : timings.length = 0
  · rw [findWordIndex_def, findWordIndex_def, if_pos h0, if_pos h0]
  by_cases hlt1 : pos1 < (tAt timings 0).start
  · have he1 : findWordIndex timings pos1 = -1 :=
      (findWordIndex_eq_neg_one_iff timings pos1).mpr (Or.inr hlt1)
    rw [he1]
    exact findWordIndex_ge_neg_one timings pos2
  have hge1 : (tAt timings 0).start ≤ pos1 := not_lt.mp hlt1
  have hge2 : (tAt timings 0).start ≤ pos2 := le_trans hge1 h12
  by_cases hlast : (tAt timings (timings.length - 1)).start ≤ pos2
  · have h01 : (tAt timings 0).start ≤ (tAt timings (timings.length - 1)).start :=
      tAt_start_le_start timings ho hp (Nat.zero_le _) (by omega)
    rw [findWordIndex_trailing timings pos2 h0 h01 hlast]
    have := findWordIndex_bounds timings pos1 h0 hge1
    omega
  · have hlt2 : pos2 < (tAt timings (timings.length - 1)).start := not_le.mp hlast
    have hlt1' : pos1 < (tAt timings (timings.length - 1)).start := by omega
    obtain ⟨i1, hia, hib, hic, hid⟩ :=
      findWordIndex_locates timings pos1 ho hp h0 hge1 hlt1'
    obtain ⟨i2, hja, hjb, hjc, hjd⟩ :=
      findWordIndex_locates timings pos2 ho hp h0 hge2 hlt2
    rw [hid, hjd]
    by_contra hcon
    have hlt3 : i2 < i1 := by omega
    have : (tAt timings (i2 + 1)).start ≤ (tAt timings i1).start :=
      tAt_start_le_start timings ho hp (by omega) (by omega)
    omega

/-! ### Highlight/scroll coupling layer (mobile PdfViewerScreen) -/

/-- The mobile word-tracking effect, run once per position update:

  const timings = wordTimingsRef.current;
  if (!timings.length) return;
  const idx = findWordIndex(timings, pos);
  if (idx !== currentWordRef.current) {
    currentWordRef.current = idx;
    setCurrentWordIndex(idx);
  }

State is the last published index; the `Bool` records whether a publish
(state write) happened on this update. -/
def trackStep (timings : List WordTiming) (lastPublished : Int) (pos : Int) :
    Int × Bool :=
  if timings.length = 0 then (lastPublished, false)
  else
    let idx := findWordIndex timings pos
    if idx ≠ lastPublished then (idx, true) else (lastPublished, false)

/-- Runs a sequence of position updates through `trackStep`, collecting the
published index values in order. -/
def runUpdates (timings : List WordTiming) (lastPublished : Int) :
    List Int → Int × List Int
  | [] => (lastPublished, [])
  | pos :: rest =>
    let step := trackStep timings lastPublished pos
    let tail := runUpdates timings step.1 rest
    (tail.1, (if step.2 then [step.1] else []) ++ tail.2)

/-- `Math.max(0, targetY - SCREEN_HEIGHT * 0.35)` — the scroll target the
mobile auto-scroll effect computes for a word at vertical offset `targetY`.
`centerOffset` stands for `SCREEN_HEIGHT * 0.35`, a per-device constant. -/
def scrollTargetOf (targetY centerOffset : Int) : Int :=
  max 0 (targetY - centerOffset)

/-- The mobile auto-scroll effect, run when the current word changes:

  if (currentWordIndex < 0 || !showReader) return;
  const positions = wordYPositions.current;
  if (!positions || currentWordIndex >= positions.length) return;
  const targetY = positions[currentWordIndex];
  if (targetY === 0 && currentWordIndex > 5) return;   // not measured yet
  const scrollTarget = Math.max(0, targetY - SCREEN_HEIGHT * 0.35);
  if (Math.abs(scrollTarget - lastScrollY.current) > 20) {
    lastScrollY.current = scrollTarget;
    scrollViewRef.current?.scrollTo({ y: scrollTarget, animated: true });
  }

Result: the new `lastScrollY` and whether a scroll command was issued.
Pixel offsets are modelled as `Int`; `positions = none` is the null table. -/
def autoScrollStep (positions : Option (List Int)) (centerOffset : Int)
    (currentWordIndex : Int) (showReader : Bool) (lastScrollY : Int) :
    Int × Bool :=
  if currentWordIndex < 0 ∨ showReader = false then (lastScrollY, false)
  else
    match positions with
    | none => (lastScrollY, false)
    | some ps =>
      if (ps.length : Int) ≤ currentWordIndex then (lastScrollY, false)
      else
        let targetY := ps.getD currentWordIndex.toNat 0
        if targetY = 0 ∧ 5 < currentWordIndex then (lastScrollY, false)
        else
          let scrollTarget := scrollTargetOf targetY centerOffset
          if 20 < |scrollTarget - lastScrollY| then (scrollTarget, true)
          else (lastScrollY, false)

/-- The coupling state of the mobile screen: exactly the pieces of state
the `closeAudio` callback touches. -/
structure PlayerCoupling where
  audioUri : Option String
  audioLoaded : Bool
  pagesRead : List Nat
  wordTimings : List WordTiming
  wordTimingsRef : List WordTiming
  currentWordRef : Int
  currentWordIndex : Int
  showReader : Bool
  wordYPositions : Option (List Int)
  lastScrollY : Int
deriving Repr, DecidableEq

/-- The mobile `closeAudio` callback (`player.pause()` is an external
effect on the audio handle, not coupling state):

  setAudioUri(null); setAudioLoaded(false); setPagesRead([]);
  setWordTimings([]); wordTimingsRef.current = [];
  currentWordRef.current = -1; setCurrentWordIndex(-1);
  setShowReader(false); wordYPositions.current = null;
  lastScrollY.current = 0; -/
def closeAudio (_s : PlayerCoupling) : PlayerCoupling :=
  { audioUri := none
    audioLoaded := false
    pagesRead := []
    wordTimings := []
    wordTimingsRef := []
    currentWordRef := -1
    currentWordIndex := -1
    showReader := false
    wordYPositions := none
    lastScrollY := 0 }

/-- The state `closeAudio` leaves behind, as a constant. -/
def closedCouplingState : PlayerCoupling :=
  { audioUri := none
    audioLoaded := false
    pagesRead := []
    wordTimings := []
    wordTimingsRef := []
    currentWordRef := -1
    currentWordIndex := -1
    showReader := false
    wordYPositions := none
    lastScrollY := 0 }

/-- Loading a new narration segment, from the mobile `handleRead` handler:
it first resets the highlight cursor, position table and scroll cursor,
then installs the new timings and pre-allocates the position table
(`new Float64Array(timings.length)`, i.e. one zero per word). -/
def loadSegment (timings : List WordTiming) (s : PlayerCoupling) :
    PlayerCoupling :=
  { s with
    currentWordRef := -1
    currentWordIndex := -1
    wordYPositions := some (List.replicate timings.length 0)
    lastScrollY := 0
    wordTimings := timings
    wordTimingsRef := timings }

/-! ### Highlight/scroll coupling layer (web Home page) -/

/-- The web `handleTimeUpdate` callback (the `audioRef.current` null check
is folded into the guard; `posMs = currentTime * 1000`):

  if (!audioRef.current || !wordTimings.length) return;
  const idx = findWordIndex(wordTimings, posMs);
  if (idx !== currentWordIndex) setCurrentWordIndex(idx); -/
def webTrackStep (timings : List WordTiming) (currentWordIndex : Int)
    (pos : Int) : Int × Bool :=
  if timings.length = 0 then (currentWordIndex, false)
  else
    let idx := findWordIndexWeb timings pos
    if idx ≠ currentWordIndex then (idx, true) else (currentWordIndex, false)

/-- The web auto-scroll effect: scroll only when the highlighted word's
element sits outside the 30%–70% band of the reader container:

  if (currentWordIndex < 0 || !showReader) return;
  const el = wordRefs.current[currentWordIndex];
  if (el && readerRef.current) {
    const midTop = containerRect.top + containerRect.height * 0.3;
    const midBot = containerRect.top + containerRect.height * 0.7;
    if (elRect.top < midTop || elRect.top > midBot) el.scrollIntoView(...);
  }

`elTop = none` models a missing element ref.  The 0.3/0.7 factors are the
exact rationals 3/10 and 7/10; integer division is exact at the heights
used below.  Returns whether a scroll command was issued. -/
def webAutoScrollStep (elTop : Option Int) (containerTop containerHeight : Int)
    (currentWordIndex : Int) (showReader : Bool) : Bool :=
  if currentWordIndex < 0 ∨ showReader = false then false
  else
    match elTop with
    | none => false
    | some t =>
      let midTop := containerTop + containerHeight * 3 / 10
      let midBot := containerTop + containerHeight * 7 / 10
      if t < midTop ∨ midBot < t then true else false

/-! ### Equivalence of the two transcriptions -/

theorem searchLoopWeb_eq_searchLoop (timings : List WordTiming) (posMs : Int) :
    ∀ (fuel : Nat) (lo hi : Int),
      searchLoopWeb timings posMs fuel lo hi = searchLoop timings posMs fuel lo hi := by
  intro fuel
  induction fuel with
  | zero => intro lo hi; rfl
  | succ n ih =>
    intro lo hi
    show (if lo ≤ hi then _ else _) = _
    rw [searchLoop_succ]
    by_cases hlh : lo ≤ hi
    · rw [if_pos hlh, if_pos hlh]
      by_cases hc : (getT timings ((lo + hi) / 2)).start ≤ posMs ∧
          posMs < (getT timings ((lo + hi) / 2)).endMs
      · rw [if_pos hc, if_pos hc]
      · rw [if_neg hc, if_neg hc]
        by_cases hlt : posMs < (getT timings ((lo + hi) / 2)).start
        · rw [if_pos hlt, if_pos hlt, ih]
        · rw [if_neg hlt, if_neg hlt, ih]
    · rw [if_neg hlh, if_neg hlh]

theorem findWordIndexWeb_def (timings : List WordTiming) (posMs : Int) :
    findWordIndexWeb timings posMs =
      if timings.length = 0 then -1
      else if posMs < (getT timings 0).start then -1
      else if (getT timings ((timings.length : Int) - 1)).start ≤ posMs then
        (timings.length : Int) - 1
      else
        (searchLoopWeb timings posMs (timings.length + 1) 0
          ((timings.length : Int) - 1)).getD (-1) := rfl

theorem findWordIndex_eq_web (timings : List WordTiming) (posMs : Int) :
    findWordIndex timings posMs = findWordIndexWeb timings posMs := by
  rw [findWordIndex_def, findWordIndexWeb_def, searchLoopWeb_eq_searchLoop]

/-! ### The claims -/

/-- Claim C1 — exact containment: for every non-empty word-timing sequence
sorted by start non-decreasing with non-overlapping positive-width spans
(`T[i].end ≤ T[i+1].start` and `T[i].start < T[i].end` for all `i`), and
for every index `i` and position `pos` with
`T[i].start ≤ pos < T[i].end`, `findWordIndex T pos` returns `i`. -/
theorem findWordIndex_exact_containment (timings : List WordTiming)
    (ho : SpansOrdered timings) (hp : SpansPositive timings)
    (i : Nat) (hiT : i < timings.length) (posMs : Int)
    (h1 : (tAt timings i).start ≤ posMs) (h2 : posMs < (tAt timings i).endMs) :
    findWordIndex timings posMs = (i : Int) :=
  findWordIndex_containing timings posMs ho hp i hiT h1 h2

theorem findWordIndex_exact_containment_witness :
    findWordIndex sampleTimings 300 = (1 : Int) :=
  findWordIndex_exact_containment sampleTimings (by decide) (by decide)
    1 (by decide) 300 (by decide) (by decide)

/-- Claim C2, counterexample: the claim quantifies over every non-empty
sequence with `pos ≥ T[last].start`, with no sortedness assumption.  On
the unsorted sequence `[{start 10, end 20}, {start 0, end 5}]` at
`pos = 0` we have `pos ≥ T[last].start = 0`, yet the code's first guard
(`posMs < timings[0].start`) fires and returns `-1`, not the last
index `1`. -/
def c2Timings : List WordTiming :=
  [{ word := "b", start := 10, endMs := 20 },
   { word := "a", start := 0, endMs := 5 }]

theorem findWordIndex_trailing_counterexample :
    c2Timings ≠ [] ∧ (tAt c2Timings (c2Timings.length - 1)).start ≤ 0 ∧
      findWordIndex c2Timings 0 = -1 ∧ (c2Timings.length : Int) - 1 = 1 := by
  exact ⟨by decide, by decide, by decide, by decide⟩

/-- Claim C2 as amended — trailing-position behaviour: for every non-empty
word-timing sequence whose first start is at most its last start (as in
every sequence sorted by start non-decreasing), and every position
`pos ≥ T[last].start` (including positions beyond `T[last].end`),
`findWordIndex T pos` returns the last index. -/
theorem findWordIndex_trailing_amended (timings : List WordTiming)
    (hne : timings.length ≠ 0)
    (h01 : (tAt timings 0).start ≤ (tAt timings (timings.length - 1)).start)
    (posMs : Int)
    (hpos : (tAt timings (timings.length - 1)).start ≤ posMs) :
    findWordIndex timings posMs = (timings.length : Int) - 1 :=
  findWordIndex_trailing timings posMs hne h01 hpos

theorem findWordIndex_trailing_amended_witness :
    findWordIndex sampleTimings 999999 = (sampleTimings.length : Int) - 1 :=
  findWordIndex_trailing_amended sampleTimings (by decide) (by decide)
    999999 (by decide)

/-- Claim C3 — gap fallback: for every word-timing sequence sorted by start
non-decreasing with non-overlapping positive-width spans, every pair of
adjacent indices `i`, `i+1` and every position in the gap between them
(`T[i].end ≤ pos < T[i+1].start`), `findWordIndex T pos` returns `i`, the
word immediately preceding the gap. -/
theorem findWordIndex_gap_fallback (timings : List WordTiming)
    (ho : SpansOrdered timings) (hp : SpansPositive timings)
    (i : Nat) (hi1 : i + 1 < timings.length) (posMs : Int)
    (hge : (tAt timings i).endMs ≤ posMs)
    (hlt : posMs < (tAt timings (i + 1)).start) :
    findWordIndex timings posMs = (i : Int) :=
  findWordIndex_gap_fb timings posMs ho hp i hi1 hge hlt

theorem findWordIndex_gap_fallback_witness :
    findWordIndex gapTimings 300 = (0 : Int) :=
  findWordIndex_gap_fallback gapTimings (by decide) (by decide)
    0 (by decide) 300 (by decide) (by decide)

/-- Claim C4 — no-match sentinel iff and range: for every word-timing
sequence (no sortedness assumed) and every position, `findWordIndex`
returns `-1` iff the sequence is empty or the position is strictly below
the first span's start; in every other case the result is an index in
`[0, length - 1]`. -/
theorem findWordIndex_sentinel_iff_and_range (timings : List WordTiming)
    (posMs : Int) :
    (findWordIndex timings posMs = -1 ↔
      (timings.length = 0 ∨ posMs < (tAt timings 0).start)) ∧
    (timings.length ≠ 0 → (tAt timings 0).start ≤ posMs →
      0 ≤ findWordIndex timings posMs ∧
        findWordIndex timings posMs ≤ (timings.length : Int) - 1) :=
  ⟨findWordIndex_eq_neg_one_iff timings posMs,
   fun hne hge => findWordIndex_bounds timings posMs hne hge⟩

theorem findWordIndex_sentinel_iff_and_range_witness :
    0 ≤ findWordIndex c2Timings 15 ∧
      findWordIndex c2Timings 15 ≤ (c2Timings.length : Int) - 1 :=
  (findWordIndex_sentinel_iff_and_range c2Timings 15).2 (by decide) (by decide)

/-- Claim C5 — termination on all inputs: for every word-timing sequence —
unsorted, duplicate starts, zero-width or inverted spans included — and
every position, the binary-search loop of `findWordIndex` finishes within
the `length + 1` iterations it is given (it never runs forever: `isSome`
says the fuel-indexed loop reached `return`, not fuel exhaustion). -/
theorem searchLoop_terminates_all_inputs (timings : List WordTiming)
    (posMs : Int) :
    (searchLoop timings posMs (timings.length + 1) 0
      ((timings.length : Int) - 1)).isSome = true := by
  obtain ⟨r, hr⟩ := searchLoop_isSome timings posMs (timings.length + 1) 0
    ((timings.length : Int) - 1) (by omega)
  rw [hr]
  rfl

/-- Claim C6 — idempotent position updates: a position update whose
computed index equals the last published index performs no state write,
and the update sequence `100 → 150 → 150 → 600` against scenario 1's
timings publishes exactly two index changes, `0` then `2`. -/
theorem trackStep_idempotent_updates :
    (∀ (timings : List WordTiming) (lastPublished posMs : Int),
      findWordIndex timings posMs = lastPublished →
      trackStep timings lastPublished posMs = (lastPublished, false)) ∧
    (runUpdates sampleTimings (-1) [100, 150, 150, 600]).2 = [0, 2] := by
  constructor
  · intro timings lastPublished posMs h
    by_cases hT : timings.length = 0 <;> simp [trackStep, hT, h]
  · decide

theorem trackStep_idempotent_updates_witness :
    trackStep sampleTimings 0 150 = (0, false) :=
  trackStep_idempotent_updates.1 sampleTimings 0 150 (by decide)

theorem autoScrollStep_some (ps : List Int) (centerOffset idx : Int)
    (showReader : Bool) (lastScrollY : Int) :
    autoScrollStep (some ps) centerOffset idx showReader lastScrollY =
      if idx < 0 ∨ showReader = false then (lastScrollY, false)
      else if (ps.length : Int) ≤ idx then (lastScrollY, false)
      else if ps.getD idx.toNat 0 = 0 ∧ 5 < idx then (lastScrollY, false)
      else if 20 < |scrollTargetOf (ps.getD idx.toNat 0) centerOffset - lastScrollY| then
        (scrollTargetOf (ps.getD idx.toNat 0) centerOffset, true)
      else (lastScrollY, false) := rfl

/-- Claim C7 — jitter suppression in the mobile auto-scroll effect: a
scroll command is issued only when the computed scroll target differs from
the last issued target by more than 20 pixels; the stored target is
updated exactly when a command is issued (and then to the computed
target); hence two consecutive computed targets at most 20 pixels apart
never both produce a scroll command. -/
theorem autoScroll_jitter_suppression :
    (∀ (ps : List Int) (centerOffset idx : Int) (showReader : Bool)
        (lastScrollY : Int),
      ((autoScrollStep (some ps) centerOffset idx showReader lastScrollY).2 = true →
        20 < |scrollTargetOf (ps.getD idx.toNat 0) centerOffset - lastScrollY| ∧
        (autoScrollStep (some ps) centerOffset idx showReader lastScrollY).1 =
          scrollTargetOf (ps.getD idx.toNat 0) centerOffset) ∧
      ((autoScrollStep (some ps) centerOffset idx showReader lastScrollY).2 = false →
        (autoScrollStep (some ps) centerOffset idx showReader lastScrollY).1 =
          lastScrollY)) ∧
    (∀ (ps : List Int) (centerOffset idx1 idx2 : Int) (showReader : Bool)
        (lastScrollY : Int),
      |scrollTargetOf (ps.getD idx1.toNat 0) centerOffset -
        scrollTargetOf (ps.getD idx2.toNat 0) centerOffset| ≤ 20 →
      ¬((autoScrollStep (some ps) centerOffset idx1 showReader lastScrollY).2 = true ∧
        (autoScrollStep (some ps) centerOffset idx2 showReader
          (autoScrollStep (some ps) centerOffset idx1 showReader lastScrollY).1).2
            = true)) := by
  have hstep : ∀ (ps : List Int) (centerOffset idx : Int) (showReader : Bool)
      (lastScrollY : Int),
      ((autoScrollStep (some ps) centerOffset idx showReader lastScrollY).2 = true →
        20 < |scrollTargetOf (ps.getD idx.toNat 0) centerOffset - lastScrollY| ∧
        (autoScrollStep (some ps) centerOffset idx showReader lastScrollY).1 =
          scrollTargetOf (ps.getD idx.toNat 0) centerOffset) ∧
      ((autoScrollStep (some ps) centerOffset idx showReader lastScrollY).2 = false →
        (autoScrollStep (some ps) centerOffset idx showReader lastScrollY).1 =
          lastScrollY) := by
    intro ps centerOffset idx showReader lastScrollY
    by_cases h1 : idx < 0 ∨ showReader = false
    · rw [autoScrollStep_some, if_pos h1]
      exact ⟨fun h => absurd h (by simp), fun _ => rfl⟩
    · rw [autoScrollStep_some, if_neg h1]
      by_cases h2 : (ps.length : Int) ≤ idx
      · rw [if_pos h2]
        exact ⟨fun h => absurd h (by simp), fun _ => rfl⟩
      · rw [if_neg h2]
        by_cases h3 : ps.getD idx.toNat 0 = 0 ∧ 5 < idx
        · rw [if_pos h3]
          exact ⟨fun h => absurd h (by simp), fun _ => rfl⟩
        · rw [if_neg h3]
          by_cases h4 : 20 <
              |scrollTargetOf (ps.getD idx.toNat 0) centerOffset - lastScrollY|
          · rw [if_pos h4]
            exact ⟨fun _ => ⟨h4, rfl⟩, fun h => absurd h (by simp)⟩
          · rw [if_neg h4]
            exact ⟨fun h => absurd h (by simp), fun _ => rfl⟩
  refine ⟨hstep, ?_⟩
  intro ps centerOffset idx1 idx2 showReader lastScrollY hclose hboth
  obtain ⟨hb1, hb2⟩ := hboth
  obtain ⟨hgt1, heq1⟩ := (hstep ps centerOffset idx1 showReader lastScrollY).1 hb1
  obtain ⟨hgt2, heq2⟩ := (hstep ps centerOffset idx2 showReader
    (autoScrollStep (some ps) centerOffset idx1 showReader lastScrollY).1).1 hb2
  rw [heq1, abs_sub_comm] at hgt2
  exact absurd hgt2 (not_lt.mpr hclose)

theorem autoScroll_jitter_suppression_witness :
    ¬((autoScrollStep (some [100, 110]) 0 0 true 0).2 = true ∧
      (autoScrollStep (some [100, 110]) 0 1 true
        (autoScrollStep (some [100, 110]) 0 0 true 0).1).2 = true) :=
  autoScroll_jitter_suppression.2 [100, 110] 0 0 1 true 0 (by decide)

/-- Claim C8 — segment close resets all coupling state: after `closeAudio`
the published current-word index is `-1`, the timing sequence is empty,
the word-position table is cleared and the last scroll target is back at
its initial value `0`; the closed state is one fixed constant, so loading
a new segment on top of it can observe nothing of the closed segment —
in particular the fresh position table holds only zeroes and the fresh
published index is `-1`, whatever the closed segment's state was. -/
theorem closeAudio_resets_all_state :
    ∀ s : PlayerCoupling,
      closeAudio s = closedCouplingState ∧
      (closeAudio s).currentWordIndex = -1 ∧
      (closeAudio s).currentWordRef = -1 ∧
      (closeAudio s).wordTimings = [] ∧
      (closeAudio s).wordTimingsRef = [] ∧
      (closeAudio s).wordYPositions = none ∧
      (closeAudio s).lastScrollY = 0 ∧
      ∀ (t : PlayerCoupling) (timings : List WordTiming),
        loadSegment timings (closeAudio s) = loadSegment timings (closeAudio t) ∧
        (loadSegment timings (closeAudio s)).wordYPositions =
          some (List.replicate timings.length 0) ∧
        (loadSegment timings (closeAudio s)).currentWordIndex = -1 ∧
        (loadSegment timings (closeAudio s)).currentWordRef = -1 := by
  intro s
  exact ⟨rfl, rfl, rfl, rfl, rfl, rfl, rfl, fun t timings => ⟨rfl, rfl, rfl, rfl⟩⟩

/-- Claim C9, counterexample: the clients' coupling logic is not
equivalent.  In one common visual situation — reader visible, highlighted
word 500 px below the top of a 1000 px viewport whose container top is 0,
nothing scrolled yet (`lastScrollY = 0`, element top = word offset), with
`SCREEN_HEIGHT * 0.35 = 350` — the mobile effect issues a scroll command
(`|max 0 (500 - 350) - 0| = 150 > 20`) while the web effect issues none
(500 sits inside the 30%–70% band `[300, 700]` of the container). -/
theorem client_coupling_counterexample :
    (autoScrollStep (some [500]) 350 0 true 0).2 = true ∧
      webAutoScrollStep (some 500) 0 1000 0 true = false := by
  exact ⟨by decide, by decide⟩

/-- Claim C9 as amended — cross-client equivalence of the lookup and the
highlight step: the mobile and web `findWordIndex` return equal results on
every sequence and position, and the two clients' publish-on-index-change
steps are equal as functions of (timings, last published index, position);
the auto-scroll policies, however, differ (see the counterexample). -/
theorem client_equivalence_amended :
    (∀ (timings : List WordTiming) (posMs : Int),
      findWordIndex timings posMs = findWordIndexWeb timings posMs) ∧
    (∀ (timings : List WordTiming) (lastPublished posMs : Int),
      trackStep timings lastPublished posMs =
        webTrackStep timings lastPublished posMs) := by
  refine ⟨findWordIndex_eq_web, ?_⟩
  intro timings lastPublished posMs
  unfold trackStep webTrackStep
  rw [findWordIndex_eq_web]

/-- Claim C10 — monotonicity of the lookup: on every sequence sorted by
start non-decreasing with non-overlapping positive-width spans,
`findWordIndex` is monotone non-decreasing in the position, so the
highlighted index never moves backward while playback advances. -/
theorem findWordIndex_monotone (timings : List WordTiming)
    (ho : SpansOrdered timings) (hp : SpansPositive timings)
    (pos1 pos2 : Int) (h12 : pos1 ≤ pos2) :
    findWordIndex timings pos1 ≤ findWordIndex timings pos2 :=
  findWordIndex_mono timings ho hp pos1 pos2 h12

theorem findWordIndex_monotone_witness :
    findWordIndex sampleTimings 100 ≤ findWordIndex sampleTimings 600 :=
  findWordIndex_monotone sampleTimings (by decide) (by decide)
    100 600 (by decide)
